import Mathlib

/-!
Verification of the daily aggregation and reporting engine of
`mqtt_subscriber_report.py` (class `DailyAggregator` and the `Subscriber`
message path), shallowly embedded in Lean.

Floats are modelled as exact rationals (`ℚ`); the claims under scrutiny are
about exact arithmetic of means, sums, differences and roundings, which the
rational model reproduces without float error.  Calendar dates are modelled as
integer day numbers.
-/

/-- A calendar day, encoded as a day count (the `datetime.date` value the
aggregator groups by). -/
abbrev Day := Int

/-- One entry of `DailyAggregator.rows` (`add_message`, lines 27-32 of
`mqtt_subscriber_report.py`): the decoded reading one message contributed.
The report pipeline below is modelled over stores of finite readings. -/
structure RawRow where
  date : Day
  reservoir_id : String
  storage_taf : ℚ
  storage_af : Int
deriving DecidableEq, Repr

/-- Insert `a` into `l` in front of the first element `b` with `le a b`. -/
def insertBy {α : Type*} (le : α → α → Bool) (a : α) : List α → List α
  | [] => [a]
  | b :: bs => if le a b then a :: b :: bs else b :: insertBy le a bs

/-- Insertion sort by `le`.  Embeds the pandas sorts (`groupby(sort=True)`,
`sort_values`): all key lists sorted here are duplicate-free, so every
comparison sort produces the same list. -/
def sortBy {α : Type*} (le : α → α → Bool) : List α → List α
  | [] => []
  | a :: as => insertBy le a (sortBy le as)

/-- Lexicographic order on code-point lists: the order Python uses to compare
the reservoir-id strings. -/
def lexLe : List Char → List Char → Bool
  | [], _ => true
  | _ :: _, [] => false
  | a :: as, b :: bs =>
    if a.toNat < b.toNat then true
    else if b.toNat < a.toNat then false
    else lexLe as bs

/-- Python string comparison. -/
def strLe (a b : String) : Bool := lexLe a.data b.data

/-- Day comparison. -/
def dayLe (a b : Day) : Bool := decide (a ≤ b)

/-- The raw rows of the `(d, r)` group: `df.groupby(["date","reservoir_id"])`
membership (line 39). -/
def groupOf (rows : List RawRow) (d : Day) (r : String) : List RawRow :=
  rows.filter (fun x => decide (x.date = d) && decide (x.reservoir_id = r))

/-- Group mean of `storage_taf` (line 40, `("storage_taf","mean")`). -/
def meanTaf (rows : List RawRow) (d : Day) (r : String) : ℚ :=
  ((groupOf rows d r).map RawRow.storage_taf).sum / ((groupOf rows d r).length : ℚ)

/-- Group mean of `storage_af` (line 40, `("storage_af","mean")`); pandas
averages the integers as floats. -/
def meanAf (rows : List RawRow) (d : Day) (r : String) : ℚ :=
  ((groupOf rows d r).map (fun x => (x.storage_af : ℚ))).sum / ((groupOf rows d r).length : ℚ)

/-- Floor of a rational, computed from its reduced fraction. -/
def qfloor (q : ℚ) : Int := q.num.fdiv (q.den : Int)

/-- Round to the nearest integer, ties to even: the rounding rule of
numpy/pandas `.round(0)` (line 42) and `.round(k)` after scaling. -/
def roundHalfEven (q : ℚ) : Int :=
  if q - (qfloor q : ℚ) < 1/2 then qfloor q
  else if (1 : ℚ)/2 < q - (qfloor q : ℚ) then qfloor q + 1
  else if qfloor q % 2 = 0 then qfloor q else qfloor q + 1

/-- numpy/pandas `.round(k)`: scale by `10^k`, round half-to-even, unscale
(exact in the rational model). -/
def roundDec (k : Nat) (q : ℚ) : ℚ :=
  (roundHalfEven (q * (10 : ℚ) ^ k) : ℚ) / (10 : ℚ) ^ k

/-- Round half away from zero.  This is NOT what the source uses; it is the
rule the spec sentence for `storageAf` describes, defined here only to compare
that sentence against the source's half-to-even rounding. -/
def roundHalfAway (q : ℚ) : Int :=
  if q < 0 then -(qfloor (-q + 1/2)) else qfloor (q + 1/2)

/-- The distinct reservoir ids of the store, in the report's order
(`sort_values(["reservoir_id","date"])`, line 43: reservoir is the major
key). -/
def reservoirsOf (rows : List RawRow) : List String :=
  sortBy strLe ((rows.map RawRow.reservoir_id).dedup)

/-- The store entries of one reservoir. -/
def rowsFor (rows : List RawRow) (r : String) : List RawRow :=
  rows.filter (fun x => decide (x.reservoir_id = r))

/-- The distinct days on which reservoir `r` reported, ascending: the row
sequence of `r` inside the sorted `per_res` frame (lines 43-44). -/
def daysOf (rows : List RawRow) (r : String) : List Day :=
  sortBy dayLe (((rowsFor rows r).map RawRow.date).dedup)

/-- The distinct reservoirs that reported on day `d`: the `(d, ·)` groups of
`per_res`, over which line 45's `groupby("date").sum` sums. -/
def reservoirsOn (rows : List RawRow) (d : Day) : List String :=
  ((rows.filter (fun x => decide (x.date = d))).map RawRow.reservoir_id).dedup

/-- `total_taf` of day `d` (line 45): the sum of the per-group mean
`storage_taf` over exactly the `(d, reservoir)` groups present in `per_res`
(one summand per reservoir that reported on `d`; no zero-fill). -/
def totalTaf (rows : List RawRow) (d : Day) : ℚ :=
  ((reservoirsOn rows d).map (fun r => meanTaf rows d r)).sum

/-- `total_af` of day `d` (line 46): the same sum over the already-rounded
integer `storage_af` column (line 42 overwrites the column before line 45). -/
def totalAf (rows : List RawRow) (d : Day) : Int :=
  ((reservoirsOn rows d).map (fun r => roundHalfEven (meanAf rows d r))).sum

/-- One row of the final report frame (line 49's column list). -/
structure AggRow where
  date : Day
  reservoir_id : String
  storage_taf : ℚ
  storage_af : Int
  delta_taf : Option ℚ
  pct_of_total : Option ℚ
  total_taf : ℚ
  total_af : Int
deriving DecidableEq, Repr

/-- The report row of group `(d, r)`, given the day `prevDay` that precedes
`d` in `r`'s row sequence (`none` for `r`'s first row).
  * `delta_taf` (line 44): `diff` subtracts the previous row's `storage_taf`,
    which is the group mean of the previous day present for `r`; `.round(3)`;
    `NaN` (here `none`) when there is no previous row.
  * `pct_of_total` (line 48): `storage_taf/total_taf*100` then `.round(2)`.
    When `total_taf = 0` the float quotient is non-finite (`0/0 = NaN`,
    otherwise `±inf`), a non-number that `round` keeps; modelled as `none`. -/
def finalRow (rows : List RawRow) (r : String) (prevDay : Option Day) (d : Day) : AggRow :=
  { date := d
    reservoir_id := r
    storage_taf := meanTaf rows d r
    storage_af := roundHalfEven (meanAf rows d r)
    delta_taf := prevDay.map (fun p => roundDec 3 (meanTaf rows d r - meanTaf rows p r))
    pct_of_total :=
      if totalTaf rows d = 0 then none
      else some (roundDec 2 (meanTaf rows d r / totalTaf rows d * 100))
    total_taf := totalTaf rows d
    total_af := totalAf rows d }

/-- The report rows of one reservoir, walking its day sequence while
threading the previous day (the `groupby("reservoir_id").diff()` state). -/
def resSeq (rows : List RawRow) (r : String) : Option Day → List Day → List AggRow
  | _, [] => []
  | p, d :: ds => finalRow rows r p d :: resSeq rows r (some d) ds

/-- Concatenation of a list-valued map (the rows of all reservoir blocks in
order). -/
def flatAll {α β : Type*} (f : α → List β) : List α → List β
  | [] => []
  | x :: xs => f x ++ flatAll f xs

/-- The report frame built by `write_report` (lines 37-49): one row per
`(date, reservoir_id)` group, ordered by reservoir then day. -/
def buildReport (rows : List RawRow) : List AggRow :=
  flatAll (fun r => resSeq rows r none (daysOf rows r)) (reservoirsOf rows)

/-- `write_report` (lines 34-56): `None`, and no files written, when the store
is empty (line 35-36); otherwise the report is built and written.  `some rep`
models "files containing `rep` were written". -/
def write_report (rows : List RawRow) : Option (List AggRow) :=
  if rows = [] then none else some (buildReport rows)

/-- The aggregator object: the configured timezone (modelled by its UTC
offset in minutes) and the accumulated store (`__init__`, lines 20-22). -/
structure DailyAggregator where
  tzOffsetMinutes : Int
  rows : List RawRow
deriving DecidableEq, Repr

/-- The `write_report` method as a state transformer: its return value paired
with the receiver state after the call.  The method only reads `self.rows`
(lines 34-56 never assign or mutate it; `pd.DataFrame(self.rows)` copies), so
the resulting state is the receiver unchanged. -/
def write_report_state (s : DailyAggregator) : Option (List AggRow) × DailyAggregator :=
  (write_report s.rows, s)

/-- The day predicate used to select one report day. -/
def matchDay (d : Day) (row : AggRow) : Bool := decide (row.date = d)

/-- The reservoir predicate used to select one reservoir's row sequence. -/
def matchRes (r : String) (row : AggRow) : Bool := decide (row.reservoir_id = r)

/-- The `(day, reservoir)` key predicate used to select one group's rows. -/
def matchKey (d : Day) (r : String) (row : AggRow) : Bool :=
  matchDay d row && matchRes r row

/-- The day immediately preceding the first occurrence of `d` in a day list,
with `p` the day preceding the list head (the state `resSeq` threads). -/
def prevIn : Option Day → List Day → Day → Option Day
  | _, [], _ => none
  | p, x :: xs, d => if x = d then p else prevIn (some x) xs d

/-- A timestamp as carried by a payload: the instant (minutes since epoch,
UTC) together with the UTC offset written in the ISO-8601 string. -/
structure Timestamp where
  utcMinutes : Int
  offsetMinutes : Int
deriving DecidableEq, Repr

/-- `pd.to_datetime(payload["timestamp"]).date()` (lines 25-26): the calendar
date of the instant evaluated in the timestamp's OWN offset (pandas keeps the
string's fixed offset; `self.tz` is not consulted). -/
def Timestamp.pyDate (t : Timestamp) : Day :=
  (t.utcMinutes + t.offsetMinutes).fdiv 1440

/-- The day the spec prescribes: the calendar date of the instant evaluated in
the Aggregator's configured timezone, modelled by that timezone's UTC offset
in minutes at the instant (America/Los_Angeles in winter is UTC-08:00, i.e.
-480).  Defined only to compare the spec sentence against `Timestamp.pyDate`;
the source never computes this. -/
def specDayInConfiguredTz (tzOffsetMinutes : Int) (t : Timestamp) : Day :=
  (t.utcMinutes + tzOffsetMinutes).fdiv 1440

/-- A Python float value as decoded from JSON: finite, or one of the
non-finite values `json.loads` accepts (`NaN`, `Infinity`, `-Infinity`). -/
inductive PyFloat where
  | finite (q : ℚ)
  | nan
  | inf
  | ninf
deriving DecidableEq, Repr

/-- Python `int(x)` on a float: truncation toward zero; raises (`none`) on a
non-finite value. -/
def pyInt : PyFloat → Option Int
  | .finite q => some (q.num.tdiv (q.den : Int))
  | _ => none

/-- A received JSON payload as `add_message` reads it.  Outer `none` models a
missing key (`KeyError`); for `timestamp` the inner `none` models a string
`pd.to_datetime` cannot parse; for the numeric fields the inner `none` models
a value `float`/`int` cannot convert. -/
structure RawPayload where
  reservoir_id : Option String
  timestamp : Option (Option Timestamp)
  wml_taf : Option (Option PyFloat)
  wml_af : Option (Option PyFloat)
deriving DecidableEq, Repr

/-- A store entry as `add_message` actually builds it, before any validity
assumption: `storage_taf` is whatever float the payload carried (line 30
stores `float(payload["wml_taf"])` unchecked, finite or not), and
`reservoir_id` is the payload string unchecked (line 29). -/
structure StoredRow where
  date : Day
  reservoir_id : String
  storage_taf : PyFloat
  storage_af : Int
deriving DecidableEq, Repr

/-- `DailyAggregator.add_message` (lines 24-32): `none` when one of the field
accesses or conversions raises (the order of the accesses affects only the
logged message, not whether a row is appended), `some row` when a row is
appended to the store.  No validation happens beyond the conversions:
an empty `reservoir_id` and a non-finite `wml_taf` pass through. -/
def add_message (p : RawPayload) : Option StoredRow :=
  match p.timestamp, p.reservoir_id, p.wml_taf, p.wml_af with
  | some (some ts), some rid, some (some taf), some (some afv) =>
    (pyInt afv).map (fun af => { date := ts.pyDate, reservoir_id := rid,
                                 storage_taf := taf, storage_af := af })
  | _, _, _, _ => none

/-- `Subscriber.on_message` (lines 74-79): the store after one delivery.
`msg = none` models a payload `json.loads` rejects.  Every exception from
decoding or `add_message` is caught (`except ... print`), leaving the store
unchanged; the handler always returns, so the subscriber keeps processing. -/
def on_message (store : List StoredRow) (msg : Option RawPayload) : List StoredRow :=
  match msg with
  | none => store
  | some p =>
    match add_message p with
    | none => store
    | some row => store ++ [row]

/- Concrete evaluations below (`decide`) need the kernel-style reduction of
the rational operations, which Batteries marks `@[irreducible]`. -/
attribute [local semireducible] Rat.add Rat.mul Rat.inv Rat.sub

/-! ## Sorting helpers -/

theorem insertBy_perm {α : Type*} (le : α → α → Bool) (a : α) (l : List α) :
    (insertBy le a l).Perm (a :: l) := by
  induction l with
  | nil => simp [insertBy]
  | cons b bs ih =>
    cases hab : le a b with
    | true => simp [insertBy, hab]
    | false =>
      simp only [insertBy, hab, Bool.false_eq_true, if_false]
      exact (ih.cons b).trans (List.Perm.swap a b bs)

theorem sortBy_perm {α : Type*} (le : α → α → Bool) (l : List α) :
    (sortBy le l).Perm l := by
  induction l with
  | nil => simp [sortBy]
  | cons a as ih => exact (insertBy_perm le a (sortBy le as)).trans (ih.cons a)

theorem mem_sortBy {α : Type*} {le : α → α → Bool} {a : α} {l : List α} :
    a ∈ sortBy le l ↔ a ∈ l :=
  (sortBy_perm le l).mem_iff

theorem mem_insertBy {α : Type*} {le : α → α → Bool} {x a : α} {l : List α} :
    x ∈ insertBy le a l ↔ x = a ∨ x ∈ l := by
  rw [(insertBy_perm le a l).mem_iff, List.mem_cons]

theorem nodup_sortBy {α : Type*} {le : α → α → Bool} {l : List α} (h : l.Nodup) :
    (sortBy le l).Nodup :=
  (sortBy_perm le l).nodup_iff.mpr h

theorem pairwise_insertBy_day {a : Day} {l : List Day} (h : l.Pairwise (· ≤ ·)) :
    (insertBy dayLe a l).Pairwise (· ≤ ·) := by
  induction l with
  | nil => simp [insertBy]
  | cons b bs ih =>
    rcases List.pairwise_cons.mp h with ⟨hb, hbs⟩
    cases hab : dayLe a b with
    | true =>
      have hab' : a ≤ b := of_decide_eq_true hab
      simp only [insertBy, hab, if_true]
      refine List.pairwise_cons.mpr ⟨?_, h⟩
      intro x hx
      rcases List.mem_cons.mp hx with rfl | hx
      · exact hab'
      · exact le_trans hab' (hb x hx)
    | false =>
      have hba : b ≤ a := by
        have hnab : ¬ a ≤ b := by simpa [dayLe] using hab
        exact le_of_not_le hnab
      simp only [insertBy, hab, Bool.false_eq_true, if_false]
      refine List.pairwise_cons.mpr ⟨?_, ih hbs⟩
      intro x hx
      rcases mem_insertBy.mp hx with rfl | hx
      · exact hba
      · exact hb x hx

theorem sortBy_day_sorted (l : List Day) : (sortBy dayLe l).Pairwise (· ≤ ·) := by
  induction l with
  | nil => simp [sortBy]
  | cons a as ih => exact pairwise_insertBy_day ih

/-! ## The key lists of the pipeline: membership and shape -/

theorem reservoirsOf_nodup (rows : List RawRow) : (reservoirsOf rows).Nodup :=
  nodup_sortBy (List.nodup_dedup _)

theorem daysOf_nodup (rows : List RawRow) (r : String) : (daysOf rows r).Nodup :=
  nodup_sortBy (List.nodup_dedup _)

theorem daysOf_sorted (rows : List RawRow) (r : String) :
    (daysOf rows r).Pairwise (· ≤ ·) :=
  sortBy_day_sorted _

theorem daysOf_strict (rows : List RawRow) (r : String) :
    (daysOf rows r).Pairwise (· < ·) :=
  ((daysOf_sorted rows r).and (daysOf_nodup rows r)).imp
    (fun h => lt_of_le_of_ne h.1 h.2)

theorem reservoirsOn_nodup (rows : List RawRow) (d : Day) :
    (reservoirsOn rows d).Nodup :=
  List.nodup_dedup _

theorem mem_reservoirsOf {rows : List RawRow} {r : String} :
    r ∈ reservoirsOf rows ↔ ∃ x ∈ rows, x.reservoir_id = r := by
  simp [reservoirsOf, mem_sortBy, List.mem_dedup, List.mem_map]

theorem mem_daysOf {rows : List RawRow} {r : String} {d : Day} :
    d ∈ daysOf rows r ↔ ∃ x ∈ rows, x.date = d ∧ x.reservoir_id = r := by
  simp only [daysOf, mem_sortBy, List.mem_dedup, List.mem_map, rowsFor,
    List.mem_filter, decide_eq_true_eq]
  constructor
  · rintro ⟨x, ⟨hx, hr⟩, hd⟩
    exact ⟨x, hx, hd, hr⟩
  · rintro ⟨x, hx, hd, hr⟩
    exact ⟨x, ⟨hx, hr⟩, hd⟩

theorem mem_reservoirsOn {rows : List RawRow} {d : Day} {r : String} :
    r ∈ reservoirsOn rows d ↔ ∃ x ∈ rows, x.date = d ∧ x.reservoir_id = r := by
  simp only [reservoirsOn, List.mem_dedup, List.mem_map, List.mem_filter,
    decide_eq_true_eq]
  constructor
  · rintro ⟨x, ⟨hx, hd⟩, hr⟩
    exact ⟨x, hx, hd, hr⟩
  · rintro ⟨x, hx, hd, hr⟩
    exact ⟨x, ⟨hx, hd⟩, hr⟩

theorem groupOf_ne_nil_iff {rows : List RawRow} {d : Day} {r : String} :
    groupOf rows d r ≠ [] ↔ ∃ x ∈ rows, x.date = d ∧ x.reservoir_id = r := by
  rw [Ne, List.eq_nil_iff_forall_not_mem]
  push_neg
  simp [groupOf, List.mem_filter]

/-! ## flatAll and finalRow basics -/

theorem mem_flatAll {α β : Type*} {f : α → List β} {l : List α} {b : β} :
    b ∈ flatAll f l ↔ ∃ a ∈ l, b ∈ f a := by
  induction l with
  | nil => simp [flatAll]
  | cons x xs ih => simp [flatAll, ih, List.mem_append, or_and_right, exists_or]

theorem filter_flatAll {α β : Type*} (p : β → Bool) (f : α → List β) (l : List α) :
    (flatAll f l).filter p = flatAll (fun a => (f a).filter p) l := by
  induction l with
  | nil => simp [flatAll]
  | cons x xs ih => simp [flatAll, List.filter_append, ih]

theorem flatAll_congr {α β : Type*} {f g : α → List β} {l : List α}
    (h : ∀ a ∈ l, f a = g a) : flatAll f l = flatAll g l := by
  induction l with
  | nil => rfl
  | cons x xs ih =>
    simp only [flatAll, h x (List.mem_cons_self x xs)]
    rw [ih (fun a ha => h a (List.mem_cons_of_mem x ha))]

@[simp] theorem finalRow_date (rows : List RawRow) (r : String) (p : Option Day) (d : Day) :
    (finalRow rows r p d).date = d := rfl

@[simp] theorem finalRow_reservoir (rows : List RawRow) (r : String) (p : Option Day) (d : Day) :
    (finalRow rows r p d).reservoir_id = r := rfl

theorem finalRow_taf (rows : List RawRow) (r : String) (p : Option Day) (d : Day) :
    (finalRow rows r p d).storage_taf = meanTaf rows d r := rfl

theorem finalRow_af (rows : List RawRow) (r : String) (p : Option Day) (d : Day) :
    (finalRow rows r p d).storage_af = roundHalfEven (meanAf rows d r) := rfl

theorem finalRow_delta (rows : List RawRow) (r : String) (p : Option Day) (d : Day) :
    (finalRow rows r p d).delta_taf =
      p.map (fun q => roundDec 3 (meanTaf rows d r - meanTaf rows q r)) := rfl

theorem finalRow_pct (rows : List RawRow) (r : String) (p : Option Day) (d : Day) :
    (finalRow rows r p d).pct_of_total =
      (if totalTaf rows d = 0 then none
       else some (roundDec 2 (meanTaf rows d r / totalTaf rows d * 100))) := rfl

theorem finalRow_total_taf (rows : List RawRow) (r : String) (p : Option Day) (d : Day) :
    (finalRow rows r p d).total_taf = totalTaf rows d := rfl

theorem finalRow_total_af (rows : List RawRow) (r : String) (p : Option Day) (d : Day) :
    (finalRow rows r p d).total_af = totalAf rows d := rfl

/-! ## resSeq: shape and filters -/

theorem resSeq_shape (rows : List RawRow) (r : String) :
    ∀ (p : Option Day) (ds : List Day) (row : AggRow), row ∈ resSeq rows r p ds →
      ∃ p' d', d' ∈ ds ∧ row = finalRow rows r p' d' := by
  intro p ds
  induction ds generalizing p with
  | nil => intro row h; simp [resSeq] at h
  | cons x xs ih =>
    intro row h
    rcases List.mem_cons.mp h with rfl | h
    · exact ⟨p, x, List.mem_cons_self x xs, rfl⟩
    · obtain ⟨p', d', hd', hrow⟩ := ih (some x) row h
      exact ⟨p', d', List.mem_cons_of_mem x hd', hrow⟩

theorem resSeq_reservoir (rows : List RawRow) (r : String) (p : Option Day)
    (ds : List Day) (row : AggRow) (h : row ∈ resSeq rows r p ds) :
    row.reservoir_id = r := by
  obtain ⟨p', d', _, rfl⟩ := resSeq_shape rows r p ds row h
  rfl

theorem resSeq_dates (rows : List RawRow) (r : String) :
    ∀ (p : Option Day) (ds : List Day), (resSeq rows r p ds).map AggRow.date = ds := by
  intro p ds
  induction ds generalizing p with
  | nil => rfl
  | cons x xs ih => simp [resSeq, ih (some x)]

theorem mem_buildReport_shape (rows : List RawRow) (row : AggRow)
    (h : row ∈ buildReport rows) :
    ∃ r p d, d ∈ daysOf rows r ∧ row = finalRow rows r p d := by
  obtain ⟨r, _, hseg⟩ := mem_flatAll.mp h
  obtain ⟨p, d, hd, hrow⟩ := resSeq_shape rows r none (daysOf rows r) row hseg
  exact ⟨r, p, d, hd, hrow⟩

theorem resSeq_filter_matchRes_self (rows : List RawRow) (r : String)
    (p : Option Day) (ds : List Day) :
    (resSeq rows r p ds).filter (matchRes r) = resSeq rows r p ds :=
  List.filter_eq_self.mpr fun row hrow => by
    simp [matchRes, resSeq_reservoir rows r p ds row hrow]

theorem resSeq_filter_matchRes_ne (rows : List RawRow) {r₀ r : String} (h : r₀ ≠ r)
    (p : Option Day) (ds : List Day) :
    (resSeq rows r₀ p ds).filter (matchRes r) = [] :=
  List.filter_eq_nil_iff.mpr fun row hrow => by
    simp [matchRes, resSeq_reservoir rows r₀ p ds row hrow, h]

theorem resSeq_filter_matchKey_ne (rows : List RawRow) {r₀ r : String} (h : r₀ ≠ r)
    (d : Day) (p : Option Day) (ds : List Day) :
    (resSeq rows r₀ p ds).filter (matchKey d r) = [] :=
  List.filter_eq_nil_iff.mpr fun row hrow => by
    simp [matchKey, matchDay, matchRes,
      resSeq_reservoir rows r₀ p ds row hrow, h]

theorem resSeq_filter_matchDay (rows : List RawRow) (r : String) (d : Day) :
    ∀ (p : Option Day) (ds : List Day), ds.Nodup →
      (resSeq rows r p ds).filter (matchDay d) =
        if d ∈ ds then [finalRow rows r (prevIn p ds d) d] else [] := by
  intro p ds
  induction ds generalizing p with
  | nil => simp [resSeq]
  | cons x xs ih =>
    intro hnd
    rcases List.nodup_cons.mp hnd with ⟨hx, hxs⟩
    by_cases hxd : x = d
    · subst hxd
      have htail : (resSeq rows r (some x) xs).filter (matchDay x) = [] := by
        refine List.filter_eq_nil_iff.mpr fun row hrow => ?_
        obtain ⟨p', d', hd', rfl⟩ := resSeq_shape rows r (some x) xs row hrow
        have hne : d' ≠ x := fun hc => hx (hc ▸ hd')
        simp [matchDay, hne]
      simp [resSeq, List.filter_cons, matchDay, htail, prevIn]
    · have hhead : matchDay d (finalRow rows r p x) = false := by
        simp [matchDay, hxd]
      have hdm : (d ∈ x :: xs) ↔ (d ∈ xs) := by
        constructor
        · intro h
          rcases List.mem_cons.mp h with rfl | h
          · exact absurd rfl hxd
          · exact h
        · exact fun h => List.mem_cons_of_mem x h
      have hprev : prevIn p (x :: xs) d = prevIn (some x) xs d := by
        simp [prevIn, hxd]
      simp only [resSeq, List.filter_cons, hhead, Bool.false_eq_true, if_false]
      rw [ih (some x) hxs, hprev]
      by_cases hdx : d ∈ xs
      · rw [if_pos hdx, if_pos (hdm.mpr hdx)]
      · rw [if_neg hdx, if_neg (fun hc => hdx (hdm.mp hc))]

theorem resSeq_filter_matchKey_self (rows : List RawRow) (r : String) (d : Day)
    (p : Option Day) (ds : List Day) (hnd : ds.Nodup) :
    (resSeq rows r p ds).filter (matchKey d r) =
      if d ∈ ds then [finalRow rows r (prevIn p ds d) d] else [] := by
  have hcongr : (resSeq rows r p ds).filter (matchKey d r) =
      (resSeq rows r p ds).filter (matchDay d) :=
    List.filter_congr fun row hrow => by
      simp [matchKey, matchRes, resSeq_reservoir rows r p ds row hrow]
  rw [hcongr, resSeq_filter_matchDay rows r d p ds hnd]

/-! ## Report-level filter characterizations -/

theorem flatAll_filter_matchKey (rows : List RawRow) (d : Day) (r : String) :
    ∀ rs : List String, rs.Nodup →
      (flatAll (fun r' => resSeq rows r' none (daysOf rows r')) rs).filter (matchKey d r) =
        if r ∈ rs ∧ d ∈ daysOf rows r then
          [finalRow rows r (prevIn none (daysOf rows r) d) d]
        else [] := by
  intro rs
  induction rs with
  | nil => simp [flatAll]
  | cons r₀ rs' ih =>
    intro hnd
    rcases List.nodup_cons.mp hnd with ⟨hr₀, hrs'⟩
    simp only [flatAll, List.filter_append]
    rw [ih hrs']
    by_cases h0 : r₀ = r
    · subst h0
      rw [resSeq_filter_matchKey_self rows r₀ d none _ (daysOf_nodup rows r₀)]
      have hnotin : ¬ (r₀ ∈ rs' ∧ d ∈ daysOf rows r₀) := fun hc => hr₀ hc.1
      rw [if_neg hnotin, List.append_nil]
      by_cases hd : d ∈ daysOf rows r₀
      · rw [if_pos hd, if_pos ⟨List.mem_cons_self r₀ rs', hd⟩]
      · rw [if_neg hd, if_neg (fun hc => hd hc.2)]
    · rw [resSeq_filter_matchKey_ne rows h0 d none _, List.nil_append]
      by_cases hmem : r ∈ rs' ∧ d ∈ daysOf rows r
      · rw [if_pos hmem, if_pos ⟨List.mem_cons_of_mem r₀ hmem.1, hmem.2⟩]
      · rw [if_neg hmem, if_neg ?_]
        intro hc
        rcases List.mem_cons.mp hc.1 with rfl | hm
        · exact h0 rfl
        · exact hmem ⟨hm, hc.2⟩

theorem buildReport_filter_matchKey (rows : List RawRow) (d : Day) (r : String) :
    (buildReport rows).filter (matchKey d r) =
      if r ∈ reservoirsOf rows ∧ d ∈ daysOf rows r then
        [finalRow rows r (prevIn none (daysOf rows r) d) d]
      else [] :=
  flatAll_filter_matchKey rows d r (reservoirsOf rows) (reservoirsOf_nodup rows)

theorem flatAll_filter_matchRes (rows : List RawRow) (r : String) :
    ∀ rs : List String, rs.Nodup →
      (flatAll (fun r' => resSeq rows r' none (daysOf rows r')) rs).filter (matchRes r) =
        if r ∈ rs then resSeq rows r none (daysOf rows r) else [] := by
  intro rs
  induction rs with
  | nil => simp [flatAll]
  | cons r₀ rs' ih =>
    intro hnd
    rcases List.nodup_cons.mp hnd with ⟨hr₀, hrs'⟩
    simp only [flatAll, List.filter_append]
    rw [ih hrs']
    by_cases h0 : r₀ = r
    · subst h0
      rw [resSeq_filter_matchRes_self rows r₀ none _, if_neg hr₀, List.append_nil,
        if_pos (List.mem_cons_self r₀ rs')]
    · rw [resSeq_filter_matchRes_ne rows h0 none _, List.nil_append]
      by_cases hmem : r ∈ rs'
      · rw [if_pos hmem, if_pos (List.mem_cons_of_mem r₀ hmem)]
      · rw [if_neg hmem, if_neg ?_]
        intro hc
        rcases List.mem_cons.mp hc with rfl | hm
        · exact h0 rfl
        · exact hmem hm

theorem buildReport_filter_matchRes (rows : List RawRow) (r : String) :
    (buildReport rows).filter (matchRes r) =
      if r ∈ reservoirsOf rows then resSeq rows r none (daysOf rows r) else [] :=
  flatAll_filter_matchRes rows r (reservoirsOf rows) (reservoirsOf_nodup rows)

/-! ## The per-reservoir row sequence: order and deltas -/

theorem resSeq_chain (rows : List RawRow) (r : String) :
    ∀ (p : Option Day) (ds : List Day),
      List.Chain'
        (fun a b => b.delta_taf = some (roundDec 3 (b.storage_taf - a.storage_taf)))
        (resSeq rows r p ds) := by
  intro p ds
  induction ds generalizing p with
  | nil => simp [resSeq]
  | cons x xs ih =>
    cases xs with
    | nil => exact List.chain'_singleton _
    | cons y ys =>
      rw [show resSeq rows r p (x :: y :: ys) =
        finalRow rows r p x :: resSeq rows r (some x) (y :: ys) from rfl]
      rw [show resSeq rows r (some x) (y :: ys) =
        finalRow rows r (some x) y :: resSeq rows r (some y) ys from rfl]
      rw [List.chain'_cons]
      refine ⟨?_, ?_⟩
      · simp [finalRow_delta, finalRow_taf]
      · exact ih (some x)

theorem resSeq_head_delta (rows : List RawRow) (r : String) (ds : List Day) :
    ∀ row ∈ (resSeq rows r none ds).head?, row.delta_taf = none := by
  cases ds with
  | nil => simp [resSeq]
  | cons x xs =>
    intro row h
    have hrow : finalRow rows r none x = row := by
      simpa [resSeq] using h
    subst hrow
    simp [finalRow_delta]

theorem resSeq_pairwise_date (rows : List RawRow) (r : String) (p : Option Day)
    (ds : List Day) (h : ds.Pairwise (· < ·)) :
    (resSeq rows r p ds).Pairwise (fun a b => a.date < b.date) := by
  have hm := resSeq_dates rows r p ds
  have h2 : ((resSeq rows r p ds).map AggRow.date).Pairwise (· < ·) := by
    rw [hm]; exact h
  exact List.pairwise_map.mp h2

/-! ## Day sums: the rows of one day sum to the stored totals -/

theorem sum_map_eq_of_mem_iff {α M : Type*} [DecidableEq α] [AddCommMonoid M]
    (f : α → M) {l₁ l₂ : List α} (h₁ : l₁.Nodup) (h₂ : l₂.Nodup)
    (hm : ∀ x, x ∈ l₁ ↔ x ∈ l₂) : (l₁.map f).sum = (l₂.map f).sum := by
  rw [← List.sum_toFinset f h₁, ← List.sum_toFinset f h₂]
  congr 1
  ext x
  simp only [List.mem_toFinset, hm x]

theorem sum_flatAll_ite {M : Type*} [AddCommMonoid M] (rows : List RawRow) (d : Day)
    (F : AggRow → M) :
    ∀ rs : List String,
      ((flatAll (fun r' => if d ∈ daysOf rows r' then
          [finalRow rows r' (prevIn none (daysOf rows r') d) d] else []) rs).map F).sum
        = (rs.map (fun r' => if d ∈ daysOf rows r' then
            F (finalRow rows r' (prevIn none (daysOf rows r') d) d) else 0)).sum := by
  intro rs
  induction rs with
  | nil => simp [flatAll]
  | cons x xs ih =>
    simp only [flatAll, List.map_append, List.sum_append, ih, List.map_cons, List.sum_cons]
    by_cases hd : d ∈ daysOf rows x
    · rw [if_pos hd, if_pos hd]; simp
    · rw [if_neg hd, if_neg hd]; simp

theorem report_dayRows_eq (rows : List RawRow) (d : Day) :
    (buildReport rows).filter (matchDay d) =
      flatAll (fun r' => if d ∈ daysOf rows r' then
        [finalRow rows r' (prevIn none (daysOf rows r') d) d] else [])
        (reservoirsOf rows) := by
  unfold buildReport
  rw [filter_flatAll]
  exact flatAll_congr fun r' _ =>
    resSeq_filter_matchDay rows r' d none _ (daysOf_nodup rows r')

theorem sum_ite_daysOf {M : Type*} [AddCommMonoid M] (rows : List RawRow) (d : Day)
    (v : String → M) :
    ((reservoirsOf rows).map (fun r' => if d ∈ daysOf rows r' then v r' else 0)).sum
      = ((reservoirsOn rows d).map v).sum := by
  rw [← List.sum_toFinset _ (reservoirsOf_nodup rows),
    ← List.sum_toFinset _ (reservoirsOn_nodup rows d)]
  rw [← Finset.sum_filter (fun r' => d ∈ daysOf rows r') v]
  congr 1
  ext x
  simp only [Finset.mem_filter, List.mem_toFinset, mem_reservoirsOf, mem_daysOf,
    mem_reservoirsOn]
  constructor
  · rintro ⟨_, h⟩
    exact h
  · rintro ⟨y, hy, hyd, hyr⟩
    exact ⟨⟨y, hy, hyr⟩, ⟨y, hy, hyd, hyr⟩⟩

theorem dayRows_sum_taf (rows : List RawRow) (d : Day) :
    (((buildReport rows).filter (matchDay d)).map AggRow.storage_taf).sum
      = totalTaf rows d := by
  rw [report_dayRows_eq, sum_flatAll_ite]
  exact sum_ite_daysOf rows d (fun r' => meanTaf rows d r')

theorem dayRows_sum_af (rows : List RawRow) (d : Day) :
    (((buildReport rows).filter (matchDay d)).map AggRow.storage_af).sum
      = totalAf rows d := by
  rw [report_dayRows_eq, sum_flatAll_ite]
  exact sum_ite_daysOf rows d (fun r' => roundHalfEven (meanAf rows d r'))

/-! ## Frame lemmas: what appending new messages cannot change -/

theorem groupOf_append_res (old new : List RawRow) {r : String}
    (hr : ∀ m ∈ new, m.reservoir_id ≠ r) (d' : Day) :
    groupOf (old ++ new) d' r = groupOf old d' r := by
  unfold groupOf
  have hnil : new.filter (fun x => decide (x.date = d') && decide (x.reservoir_id = r)) = [] :=
    List.filter_eq_nil_iff.mpr fun m hm => by simp [hr m hm]
  rw [List.filter_append, hnil, List.append_nil]

theorem groupOf_append_day (old new : List RawRow) {d : Day}
    (hd : ∀ m ∈ new, m.date ≠ d) (r' : String) :
    groupOf (old ++ new) d r' = groupOf old d r' := by
  unfold groupOf
  have hnil : new.filter (fun x => decide (x.date = d) && decide (x.reservoir_id = r')) = [] :=
    List.filter_eq_nil_iff.mpr fun m hm => by simp [hd m hm]
  rw [List.filter_append, hnil, List.append_nil]

theorem daysOf_append_res (old new : List RawRow) {r : String}
    (hr : ∀ m ∈ new, m.reservoir_id ≠ r) :
    daysOf (old ++ new) r = daysOf old r := by
  unfold daysOf rowsFor
  have hnil : new.filter (fun x => decide (x.reservoir_id = r)) = [] :=
    List.filter_eq_nil_iff.mpr fun m hm => by simp [hr m hm]
  rw [List.filter_append, hnil, List.append_nil]

theorem reservoirsOn_append_day (old new : List RawRow) {d : Day}
    (hd : ∀ m ∈ new, m.date ≠ d) :
    reservoirsOn (old ++ new) d = reservoirsOn old d := by
  unfold reservoirsOn
  have hnil : new.filter (fun x => decide (x.date = d)) = [] :=
    List.filter_eq_nil_iff.mpr fun m hm => by simp [hd m hm]
  rw [List.filter_append, hnil, List.append_nil]

theorem meanTaf_append_res (old new : List RawRow) {r : String}
    (hr : ∀ m ∈ new, m.reservoir_id ≠ r) (d' : Day) :
    meanTaf (old ++ new) d' r = meanTaf old d' r := by
  unfold meanTaf
  rw [groupOf_append_res old new hr d']

theorem meanAf_append_res (old new : List RawRow) {r : String}
    (hr : ∀ m ∈ new, m.reservoir_id ≠ r) (d' : Day) :
    meanAf (old ++ new) d' r = meanAf old d' r := by
  unfold meanAf
  rw [groupOf_append_res old new hr d']

theorem meanTaf_append_day (old new : List RawRow) {d : Day}
    (hd : ∀ m ∈ new, m.date ≠ d) (r' : String) :
    meanTaf (old ++ new) d r' = meanTaf old d r' := by
  unfold meanTaf
  rw [groupOf_append_day old new hd r']

theorem meanAf_append_day (old new : List RawRow) {d : Day}
    (hd : ∀ m ∈ new, m.date ≠ d) (r' : String) :
    meanAf (old ++ new) d r' = meanAf old d r' := by
  unfold meanAf
  rw [groupOf_append_day old new hd r']

theorem totalTaf_append_day (old new : List RawRow) {d : Day}
    (hd : ∀ m ∈ new, m.date ≠ d) :
    totalTaf (old ++ new) d = totalTaf old d := by
  unfold totalTaf
  rw [reservoirsOn_append_day old new hd]
  exact congrArg List.sum
    (List.map_congr_left fun r' _ => meanTaf_append_day old new hd r')

theorem totalAf_append_day (old new : List RawRow) {d : Day}
    (hd : ∀ m ∈ new, m.date ≠ d) :
    totalAf (old ++ new) d = totalAf old d := by
  unfold totalAf
  rw [reservoirsOn_append_day old new hd]
  exact congrArg List.sum
    (List.map_congr_left fun r' _ => by rw [meanAf_append_day old new hd r'])

theorem mem_reservoirsOf_append (old new : List RawRow) {r : String}
    (hr : ∀ m ∈ new, m.reservoir_id ≠ r) :
    r ∈ reservoirsOf (old ++ new) ↔ r ∈ reservoirsOf old := by
  rw [mem_reservoirsOf, mem_reservoirsOf]
  constructor
  · rintro ⟨x, hx, hxr⟩
    rcases List.mem_append.mp hx with h | h
    · exact ⟨x, h, hxr⟩
    · exact absurd hxr (hr x h)
  · rintro ⟨x, hx, hxr⟩
    exact ⟨x, List.mem_append_left _ hx, hxr⟩

theorem finalRow_append (old new : List RawRow) {d : Day} {r : String}
    (hd : ∀ m ∈ new, m.date ≠ d) (hr : ∀ m ∈ new, m.reservoir_id ≠ r)
    (p : Option Day) :
    finalRow (old ++ new) r p d = finalRow old r p d := by
  have h1 : meanTaf (old ++ new) d r = meanTaf old d r := meanTaf_append_res old new hr d
  have h2 : meanAf (old ++ new) d r = meanAf old d r := meanAf_append_res old new hr d
  have h3 := totalTaf_append_day old new hd
  have h4 := totalAf_append_day old new hd
  cases p with
  | none => simp [finalRow, h1, h2, h3, h4]
  | some q =>
    have h5 : meanTaf (old ++ new) q r = meanTaf old q r := meanTaf_append_res old new hr q
    simp [finalRow, h1, h2, h3, h4, h5]

theorem buildReport_ne_nil (rows : List RawRow) (h : rows ≠ []) :
    buildReport rows ≠ [] := by
  obtain ⟨x, hx⟩ : ∃ x, x ∈ rows := by
    cases rows with
    | nil => exact absurd rfl h
    | cons y ys => exact ⟨y, List.mem_cons_self y ys⟩
  have hr : x.reservoir_id ∈ reservoirsOf rows := mem_reservoirsOf.mpr ⟨x, hx, rfl⟩
  have hd : x.date ∈ daysOf rows x.reservoir_id := mem_daysOf.mpr ⟨x, hx, rfl, rfl⟩
  intro hc
  have hchar := buildReport_filter_matchKey rows x.date x.reservoir_id
  rw [hc, if_pos ⟨hr, hd⟩] at hchar
  simp at hchar

/-! ## The claims -/

/-- Claim C1: for every non-empty set of added messages sharing one
`(day, reservoirId)`, the report written by `write_report` contains exactly
one row for that group, and that row's `storage_taf` is the arithmetic mean
(sum divided by count) of the group's `storage_taf` values. -/
theorem claim_group_mean (rows : List RawRow) (d : Day) (r : String)
    (h : groupOf rows d r ≠ []) :
    ∃ rep, write_report rows = some rep ∧
      (rep.filter (matchKey d r)).length = 1 ∧
      ∀ row ∈ rep.filter (matchKey d r),
        row.storage_taf =
          ((groupOf rows d r).map RawRow.storage_taf).sum
            / ((groupOf rows d r).length : ℚ) := by
  obtain ⟨x, hx, hxd, hxr⟩ := groupOf_ne_nil_iff.mp h
  have hne : rows ≠ [] := by
    intro hc
    rw [hc] at hx
    exact List.not_mem_nil x hx
  have hcond : r ∈ reservoirsOf rows ∧ d ∈ daysOf rows r :=
    ⟨mem_reservoirsOf.mpr ⟨x, hx, hxr⟩, mem_daysOf.mpr ⟨x, hx, hxd, hxr⟩⟩
  refine ⟨buildReport rows, by simp [write_report, hne], ?_, ?_⟩
  · rw [buildReport_filter_matchKey rows d r, if_pos hcond]
    rfl
  · rw [buildReport_filter_matchKey rows d r, if_pos hcond]
    intro row hrow
    have hrw := List.mem_singleton.mp hrow
    subst hrw
    rfl

/-- Witness for C1: two messages for (day 0, "A") with values 4 and 6 give one
row with mean 5. -/
theorem claim_group_mean_witness :
    groupOf [RawRow.mk 0 "A" 4 4, RawRow.mk 0 "A" 6 6] 0 "A" ≠ [] ∧
    (∃ rep, write_report [RawRow.mk 0 "A" 4 4, RawRow.mk 0 "A" 6 6] = some rep ∧
      (rep.filter (matchKey 0 "A")).length = 1 ∧
      ∀ row ∈ rep.filter (matchKey 0 "A"),
        row.storage_taf =
          ((groupOf [RawRow.mk 0 "A" 4 4, RawRow.mk 0 "A" 6 6] 0 "A").map
              RawRow.storage_taf).sum
            / ((groupOf [RawRow.mk 0 "A" 4 4, RawRow.mk 0 "A" 6 6] 0 "A").length : ℚ)) :=
  ⟨by decide, claim_group_mean _ 0 "A" (by decide)⟩

/-- Claim C2: within each reservoir's row sequence of the report (its rows in
report order, which are its days ascending), the first row's `delta_taf` is
absent, and every subsequent row's `delta_taf` is the current row's
`storage_taf` minus the immediately preceding row's `storage_taf` (preceding
in that reservoir's own sequence), rounded to 3 decimal places. -/
theorem claim_delta (rows : List RawRow) (r : String) :
    ((buildReport rows).filter (matchRes r)).Pairwise (fun a b => a.date < b.date) ∧
    (∀ row ∈ ((buildReport rows).filter (matchRes r)).head?, row.delta_taf = none) ∧
    List.Chain'
      (fun a b => b.delta_taf = some (roundDec 3 (b.storage_taf - a.storage_taf)))
      ((buildReport rows).filter (matchRes r)) := by
  rw [buildReport_filter_matchRes rows r]
  by_cases hmem : r ∈ reservoirsOf rows
  · rw [if_pos hmem]
    exact ⟨resSeq_pairwise_date rows r none _ (daysOf_strict rows r),
      resSeq_head_delta rows r _, resSeq_chain rows r none _⟩
  · rw [if_neg hmem]
    exact ⟨List.Pairwise.nil, by simp, List.chain'_nil⟩

/-- Witness for C2 at a two-day reservoir. -/
theorem claim_delta_witness :
    ((buildReport [RawRow.mk 0 "A" 1 1, RawRow.mk 1 "A" 2 2]).filter
      (matchRes "A")).Pairwise (fun a b => a.date < b.date) ∧
    (∀ row ∈ ((buildReport [RawRow.mk 0 "A" 1 1, RawRow.mk 1 "A" 2 2]).filter
      (matchRes "A")).head?, row.delta_taf = none) ∧
    List.Chain'
      (fun a b => b.delta_taf = some (roundDec 3 (b.storage_taf - a.storage_taf)))
      ((buildReport [RawRow.mk 0 "A" 1 1, RawRow.mk 1 "A" 2 2]).filter (matchRes "A")) :=
  claim_delta _ "A"

/-- Claim C3: every row of a report day carries `total_taf` equal to the sum
of `storage_taf` over exactly that day's rows (one per reservoir that reported
that day, no zero-fill), and `total_af` equal to the corresponding
`storage_af` sum; hence the day's `storage_taf` column sums to its
`total_taf`. -/
theorem claim_day_totals (rows : List RawRow) (d : Day) (row : AggRow)
    (hrow : row ∈ (buildReport rows).filter (matchDay d)) :
    row.total_taf =
      (((buildReport rows).filter (matchDay d)).map AggRow.storage_taf).sum ∧
    row.total_af =
      (((buildReport rows).filter (matchDay d)).map AggRow.storage_af).sum := by
  have hm := List.mem_filter.mp hrow
  have hdate : row.date = d := by
    have h2 := hm.2
    simpa [matchDay] using h2
  obtain ⟨r', p', d', hd', hshape⟩ := mem_buildReport_shape rows row hm.1
  subst hshape
  have hdd : d' = d := by simpa using hdate
  subst hdd
  rw [dayRows_sum_taf, dayRows_sum_af]
  exact ⟨rfl, rfl⟩

/-- Witness for C3: a one-message day whose row carries total 1 = its own sum. -/
theorem claim_day_totals_witness :
    AggRow.mk 0 "A" 1 1 none (some 100) 1 1
        ∈ (buildReport [RawRow.mk 0 "A" 1 1]).filter (matchDay 0) ∧
    ((AggRow.mk 0 "A" 1 1 none (some 100) 1 1).total_taf =
        (((buildReport [RawRow.mk 0 "A" 1 1]).filter (matchDay 0)).map
          AggRow.storage_taf).sum ∧
      (AggRow.mk 0 "A" 1 1 none (some 100) 1 1).total_af =
        (((buildReport [RawRow.mk 0 "A" 1 1]).filter (matchDay 0)).map
          AggRow.storage_af).sum) :=
  ⟨by decide, claim_day_totals _ 0 _ (by decide)⟩

/-- Claim C4 (code bug): `add_message` derives the grouping day from the
timestamp's own UTC offset (`pd.to_datetime(...).date()`, lines 25-26); the
timezone stored by `__init__` (line 21) is never consulted.  At timestamp
2024-01-02T00:30:00+00:00 (epoch minute 28402590 = 19724*1440 + 30, offset 0)
with configured timezone America/Los_Angeles (UTC-08:00 on that date), the
code groups the message under day 19724 (2024-01-02), while the calendar date
in the configured timezone is day 19723 (2024-01-01). -/
theorem claim_day_ignores_tz :
    add_message (RawPayload.mk (some "A") (some (some (Timestamp.mk 28402590 0)))
        (some (some (PyFloat.finite 1))) (some (some (PyFloat.finite 1000))))
      = some (StoredRow.mk 19724 "A" (PyFloat.finite 1) 1000) ∧
    specDayInConfiguredTz (-480) (Timestamp.mk 28402590 0) = 19723 ∧
    (19724 : Day) ≠ 19723 := by decide

/-- Claim C5 (counterexample): a day whose only reading is exactly 0 has
`total_taf = 0`, and its row's `pct_of_total` is the non-number `NaN`
(modelled `none`), not 0 as the claim states. -/
theorem claim_pct_zero_counterexample :
    totalTaf [RawRow.mk 0 "A" 0 0] 0 = 0 ∧
    (buildReport [RawRow.mk 0 "A" 0 0]).map AggRow.pct_of_total = [none] ∧
    (none : Option ℚ) ≠ some 0 := by decide

/-- Claim C5 (amended): when a day's `total_taf` is 0, building the report
still succeeds (no division error), but every row of that day carries an
absent (`NaN`) `pct_of_total`, not 0. -/
theorem claim_pct_none_on_zero_total (rows : List RawRow) (d : Day)
    (h : totalTaf rows d = 0) :
    ∀ row ∈ buildReport rows, row.date = d → row.pct_of_total = none := by
  intro row hrow hdate
  obtain ⟨r', p', d', hd', hshape⟩ := mem_buildReport_shape rows row hrow
  subst hshape
  have hdd : d' = d := by simpa using hdate
  subst hdd
  rw [finalRow_pct, if_pos h]

/-- Witness for C5 at the all-zero day. -/
theorem claim_pct_none_on_zero_total_witness :
    totalTaf [RawRow.mk 0 "A" 0 0] 0 = 0 ∧
    (∀ row ∈ buildReport [RawRow.mk 0 "A" 0 0],
      row.date = 0 → row.pct_of_total = none) :=
  ⟨by decide, claim_pct_none_on_zero_total _ 0 (by decide)⟩

/-- Claim C6 (counterexample): for `storage_af` values 2 and 3 the group mean
is 5/2; the report stores 2 (pandas `.round(0)` rounds ties to even), while
rounding half away from zero — what the claim states — gives 3. -/
theorem claim_af_round_counterexample :
    meanAf [RawRow.mk 0 "A" 1 2, RawRow.mk 0 "A" 1 3] 0 "A" = 5/2 ∧
    (buildReport [RawRow.mk 0 "A" 1 2, RawRow.mk 0 "A" 1 3]).map
        AggRow.storage_af = [2] ∧
    roundHalfAway (5/2) = 3 ∧ (2 : Int) ≠ 3 := by decide

/-- Claim C6 (amended): every report row of the `(d, r)` group stores
`storage_af` as the group's mean rounded to the nearest integer with ties to
even (so a mean of 5/2 yields 2 and a mean of 7/2 yields 4). -/
theorem claim_af_half_even (rows : List RawRow) (d : Day) (r : String) :
    (∀ row ∈ (buildReport rows).filter (matchKey d r),
      row.storage_af = roundHalfEven (meanAf rows d r)) ∧
    roundHalfEven (5/2) = 2 ∧ roundHalfEven (7/2) = 4 := by
  refine ⟨?_, by decide, by decide⟩
  intro row hrow
  rw [buildReport_filter_matchKey rows d r] at hrow
  by_cases hmem : r ∈ reservoirsOf rows ∧ d ∈ daysOf rows r
  · rw [if_pos hmem] at hrow
    have hrw := List.mem_singleton.mp hrow
    subst hrw
    rfl
  · rw [if_neg hmem] at hrow
    exact absurd hrow (List.not_mem_nil row)

/-- Witness for C6 at the 5/2-mean group. -/
theorem claim_af_half_even_witness :
    (∀ row ∈ (buildReport [RawRow.mk 0 "A" 1 2, RawRow.mk 0 "A" 1 3]).filter
        (matchKey 0 "A"),
      row.storage_af =
        roundHalfEven (meanAf [RawRow.mk 0 "A" 1 2, RawRow.mk 0 "A" 1 3] 0 "A")) ∧
    roundHalfEven (5/2) = 2 ∧ roundHalfEven (7/2) = 4 :=
  claim_af_half_even _ 0 "A"

/-- Claim C7 (counterexample): a payload with an empty `reservoir_id`, and one
with a non-finite `wml_taf`, are both accepted by `on_message` and append a
row to the store — they are not rejected as the claim states. -/
theorem claim_invariant_counterexample :
    on_message [] (some (RawPayload.mk (some "") (some (some (Timestamp.mk 0 0)))
        (some (some (PyFloat.finite 1))) (some (some (PyFloat.finite 1000)))))
      = [StoredRow.mk 0 "" (PyFloat.finite 1) 1000] ∧
    on_message [] (some (RawPayload.mk (some "A") (some (some (Timestamp.mk 0 0)))
        (some (some PyFloat.nan)) (some (some (PyFloat.finite 1000)))))
      = [StoredRow.mk 0 "A" PyFloat.nan 1000] := by decide

/-- Claim C7 (amended): a payload that fails JSON decoding, misses a field,
carries an unparseable timestamp or numeric value, or carries a non-finite
`wml_af` (where `int()` raises) is discarded — the store is unchanged — and
the handler returns normally, so processing continues.  (Payloads with an
empty `reservoir_id` or a non-finite `wml_taf`, by contrast, are accepted;
see the counterexample.) -/
theorem claim_reject_bad_payload (store : List StoredRow) (msg : Option RawPayload)
    (h : msg = none ∨ ∃ p, msg = some p ∧
      (p.reservoir_id = none ∨ p.timestamp = none ∨ p.timestamp = some none ∨
       p.wml_taf = none ∨ p.wml_taf = some none ∨
       p.wml_af = none ∨ p.wml_af = some none ∨
       p.wml_af = some (some PyFloat.nan) ∨ p.wml_af = some (some PyFloat.inf) ∨
       p.wml_af = some (some PyFloat.ninf))) :
    on_message store msg = store := by
  rcases h with rfl | ⟨p, rfl, hbad⟩
  · rfl
  · obtain ⟨rid, ts, taf, af⟩ := p
    rcases ts with _ | ots
    · simp [on_message, add_message]
    rcases ots with _ | ts'
    · simp [on_message, add_message]
    rcases rid with _ | rid'
    · simp [on_message, add_message]
    rcases taf with _ | otaf
    · simp [on_message, add_message]
    rcases otaf with _ | taf'
    · simp [on_message, add_message]
    rcases af with _ | oaf
    · simp [on_message, add_message]
    rcases oaf with _ | afv
    · simp [on_message, add_message]
    rcases hbad with h | h | h | h | h | h | h | h | h | h <;> simp at h <;>
      subst h <;> simp [on_message, add_message, pyInt]

/-- Witness for C7: a payload missing `reservoir_id` leaves the store
unchanged. -/
theorem claim_reject_bad_payload_witness :
    (RawPayload.mk none (some (some (Timestamp.mk 0 0)))
        (some (some (PyFloat.finite 1))) (some (some (PyFloat.finite 1)))).reservoir_id
      = none ∧
    on_message [] (some (RawPayload.mk none (some (some (Timestamp.mk 0 0)))
        (some (some (PyFloat.finite 1))) (some (some (PyFloat.finite 1))))) = [] :=
  ⟨rfl, claim_reject_bad_payload [] _ (Or.inr ⟨_, rfl, Or.inl rfl⟩)⟩

/-- Claim C8 (counterexample): rows of groups that received no new messages do
change.  First: adding a day-0 message for reservoir "B" changes the
(day 0, "A") row (its `total_taf` and `pct_of_total` move).  Second: adding a
day-1 message for "A" changes the (day 2, "A") row (its `delta_taf` now diffs
against day 1 instead of day 0), though the (2, "A") group got no message. -/
theorem claim_frame_counterexample :
    ((buildReport [RawRow.mk 0 "A" 1000 1000000]).filter (matchKey 0 "A")
      ≠ (buildReport ([RawRow.mk 0 "A" 1000 1000000] ++
          [RawRow.mk 0 "B" 500 500000])).filter (matchKey 0 "A")) ∧
    ((buildReport [RawRow.mk 0 "A" 1000 0, RawRow.mk 2 "A" 1020 0]).filter
        (matchKey 2 "A")
      ≠ (buildReport ([RawRow.mk 0 "A" 1000 0, RawRow.mk 2 "A" 1020 0] ++
          [RawRow.mk 1 "A" 1010 0])).filter (matchKey 2 "A")) := by decide

/-- Claim C8 (amended): after appending new messages, a report row whose day
received no new message (so its totals and percentages keep their inputs) and
whose reservoir received no new message (so its means, day sequence and delta
keep their inputs) is identical, in all fields, to the corresponding row of
the previous report; rows sharing a day or a reservoir with a new message may
change. -/
theorem claim_frame (old new : List RawRow) (d : Day) (r : String)
    (hd : ∀ m ∈ new, m.date ≠ d) (hr : ∀ m ∈ new, m.reservoir_id ≠ r) :
    (buildReport (old ++ new)).filter (matchKey d r)
      = (buildReport old).filter (matchKey d r) := by
  rw [buildReport_filter_matchKey, buildReport_filter_matchKey,
    daysOf_append_res old new hr]
  by_cases hmem : r ∈ reservoirsOf old ∧ d ∈ daysOf old r
  · rw [if_pos hmem,
      if_pos ⟨(mem_reservoirsOf_append old new hr).mpr hmem.1, hmem.2⟩,
      finalRow_append old new hd hr _]
  · rw [if_neg hmem, if_neg ?_]
    intro hc
    exact hmem ⟨(mem_reservoirsOf_append old new hr).mp hc.1, hc.2⟩

/-- Witness for C8: a new message for (day 1, "B") leaves the (day 0, "A")
row untouched. -/
theorem claim_frame_witness :
    (∀ m ∈ [RawRow.mk 1 "B" 2 2], m.date ≠ 0) ∧
    (∀ m ∈ [RawRow.mk 1 "B" 2 2], m.reservoir_id ≠ "A") ∧
    (buildReport ([RawRow.mk 0 "A" 1 1] ++ [RawRow.mk 1 "B" 2 2])).filter
        (matchKey 0 "A")
      = (buildReport [RawRow.mk 0 "A" 1 1]).filter (matchKey 0 "A") :=
  ⟨by decide, by decide, claim_frame _ _ 0 "A" (by decide) (by decide)⟩

/-- Claim C9: `write_report` yields `None` — and writes nothing — exactly when
no message was ever added, and it never yields a present report with zero
rows, so the two situations are distinguishable. -/
theorem claim_empty_report (rows : List RawRow) :
    (write_report rows = none ↔ rows = []) ∧ write_report rows ≠ some [] := by
  constructor
  · by_cases h : rows = [] <;> simp [write_report, h]
  · by_cases h : rows = []
    · simp [write_report, h]
    · simp only [write_report, if_neg h]
      intro hc
      exact buildReport_ne_nil rows h (Option.some.inj hc)

/-- Witness for C9 at the empty store. -/
theorem claim_empty_report_witness :
    (write_report [] = none ↔ ([] : List RawRow) = []) ∧
    write_report ([] : List RawRow) ≠ some [] :=
  claim_empty_report []

/-- Claim C10: the `write_report` method leaves the accumulated store exactly
as it found it, and calling it twice in a row returns identical report
contents. -/
theorem claim_write_report_pure (s : DailyAggregator) :
    (write_report_state s).2 = s ∧
    (write_report_state ((write_report_state s).2)).1 = (write_report_state s).1 :=
  ⟨rfl, rfl⟩

/-- Witness for C10 at a concrete aggregator state. -/
theorem claim_write_report_pure_witness :
    (write_report_state (DailyAggregator.mk (-480) [RawRow.mk 0 "A" 1 1])).2
      = DailyAggregator.mk (-480) [RawRow.mk 0 "A" 1 1] ∧
    (write_report_state
        ((write_report_state (DailyAggregator.mk (-480) [RawRow.mk 0 "A" 1 1])).2)).1
      = (write_report_state (DailyAggregator.mk (-480) [RawRow.mk 0 "A" 1 1])).1 :=
  claim_write_report_pure _
